import Mathlib

/-!
Shallow embedding of src/src/trace.rs of bacon-rajan-cc: the Trace trait
(trace and is_atomic), the collector entry point trace_non_atomic, and every
Trace implementation the file provides for standard-library types. A traversal
pass is modelled as a pure function from a value to the sequence of pointer
identities the visitor (tracer) is invoked on, in call order; the result none
models a call that never returns because it blocks on a lock acquisition.
-/

namespace CcTrace

/-- Deep embedding of the Rust values whose types receive a Trace
implementation in src/src/trace.rs. Atomic leaf families (primitives, ffi
strings, io handles, net handles, paths, process handles, function pointers)
carry just enough payload to distinguish instances, since their contents are
irrelevant to tracing. State that in Rust lives outside the value itself —
another thread holding the write guard of a RwLock, an outstanding exclusive
borrow of a RefCell — is carried as a boolean field so that a traversal call
on a single value is a pure function of the value. The vCc constructor stands
for the reference-counted pointer type of the crate (a CcBoxPtr handle),
identified by a numeric identity. Option and Result are embedded by their
constructors (vNone and vSome, vOk and vErr), mirroring the Rust enums. -/
inductive Val : Type where
  | vBool (b : Bool)
  | vChar (c : Char)
  | vInt (n : Int)
  | vFloat (bits : Nat)
  | vStr (s : String)
  | vString (s : String)
  | vUnit
  | vFnPtr (arity : Nat)
  | vFfi (tag : Nat)
  | vIoHandle (tag : Nat)
  | vNet (tag : Nat)
  | vPath (tag : Nat)
  | vProcess (tag : Nat)
  | vRc
  | vWeakRc
  | vArc
  | vBarrier
  | vCondvar
  | vMutex (inner : Val)
  | vOnce
  | vPoisonError (inner : Val)
  | vRwLock (lockedElsewhere : Bool) (poisoned : Bool) (inner : Val)
  | vThread (tag : Nat)
  | vCc (id : Nat)
  | vBox (inner : Val)
  | vCell (inner : Val)
  | vRefCell (mutBorrowed : Bool) (inner : Val)
  | vMutSlice (elems : List Val)
  | vVec (elems : List Val)
  | vVecDeque (elems : List Val)
  | vLinkedList (elems : List Val)
  | vBTreeMap (entries : List (Val × Val))
  | vHashMap (entries : List (Val × Val))
  | vNone
  | vSome (inner : Val)
  | vOk (inner : Val)
  | vErr (inner : Val)

/-- Modelled from the spec: the is_atomic of the Trace implementation for the
reference-counted pointer type Cc (it lives in lib.rs, which is not under
src/). The spec treats these pointers as participating in collection (visitors
receive them), so the trait default of false applies. -/
def ccIsAtomic : Bool := false

/-- Embedding of is_atomic. The atomic bang macro and the hand-written atomic
implementations return true; every other implementation in trace.rs keeps the
trait default, which returns false — the final wildcard arm below is exactly
that default. -/
def isAtomic : Val → Bool
  | .vBool _ | .vChar _ | .vInt _ | .vFloat _ | .vStr _ | .vString _ => true
  | .vUnit => true
  | .vFnPtr _ | .vFfi _ | .vIoHandle _ | .vNet _ | .vPath _ | .vProcess _ => true
  | .vRc | .vWeakRc | .vArc | .vBarrier | .vCondvar | .vOnce => true
  | .vMutex _ | .vPoisonError _ | .vThread _ => true
  | .vCc _ => ccIsAtomic
  | _ => false

/-- Modelled from the spec: the trace of the Trace implementation for the
reference-counted pointer type Cc (in lib.rs, not under src/). The spec says
the visitor is invoked with that pointer instead of recursing further into it,
so tracing a Cc pointer is exactly one visitor invocation, on that pointer. -/
def traceCc (id : Nat) : Option (List Nat) := some [id]

mutual

/-- Embedding of trace. The result is some of the list of pointer identities
the tracer is invoked on, in call order; none models a call that never
returns. Per trace.rs: atomic implementations do nothing; RwLock calls the
blocking write, which blocks while another thread holds the lock (none),
returns Err immediately on a poisoned lock (skip), and otherwise delegates to
the held value; Cell delegates to a copy of the stored value; RefCell uses the
non-blocking try_borrow and silently skips when an exclusive borrow is
outstanding; slices, Vec, VecDeque and LinkedList delegate to each element in
order; BTreeMap and HashMap delegate to each value, ignoring keys; Option
delegates to the contained value when present; Result delegates to whichever
branch is present; Box delegates to its single owned value. -/
def trace : Val → Option (List Nat)
  | .vBool _ | .vChar _ | .vInt _ | .vFloat _ | .vStr _ | .vString _ => some []
  | .vUnit => some []
  | .vFnPtr _ | .vFfi _ | .vIoHandle _ | .vNet _ | .vPath _ | .vProcess _ => some []
  | .vRc | .vWeakRc | .vArc | .vBarrier | .vCondvar | .vOnce => some []
  | .vMutex _ => some []
  | .vPoisonError _ => some []
  | .vRwLock lockedElsewhere poisoned inner =>
      if lockedElsewhere then none
      else if poisoned then some []
      else trace inner
  | .vThread _ => some []
  | .vCc id => traceCc id
  | .vBox inner => trace inner
  | .vCell inner => trace inner
  | .vRefCell mutBorrowed inner => if mutBorrowed then some [] else trace inner
  | .vMutSlice xs => traceList xs
  | .vVec xs => traceList xs
  | .vVecDeque xs => traceList xs
  | .vLinkedList xs => traceList xs
  | .vBTreeMap es => traceEntries es
  | .vHashMap es => traceEntries es
  | .vNone => some []
  | .vSome inner => trace inner
  | .vOk inner => trace inner
  | .vErr inner => trace inner

/-- Tracing the elements of a container in order: the for loops of the slice,
Vec, VecDeque and LinkedList implementations. Blocking anywhere blocks the
whole call. -/
def traceList : List Val → Option (List Nat)
  | [] => some []
  | x :: xs =>
      match trace x, traceList xs with
      | some l, some ls => some (l ++ ls)
      | _, _ => none

/-- Tracing the entries of a map in order: the for loops of the BTreeMap and
HashMap implementations, which destructure each pair and trace only the value
side. -/
def traceEntries : List (Val × Val) → Option (List Nat)
  | [] => some []
  | (_, v) :: es =>
      match trace v, traceEntries es with
      | some l, some ls => some (l ++ ls)
      | _, _ => none

end

/-- Embedding of the collector entry point trace_non_atomic of trace.rs: it
calls trace exactly when is_atomic returns false, and otherwise does nothing
(zero visitor invocations, immediate return). -/
def trace_non_atomic (v : Val) : Option (List Nat) :=
  if !(isAtomic v) then trace v else some []

mutual

/-- A sufficient syntactic condition for a traversal call to complete: no
RwLock anywhere inside the value is currently write-locked by another thread.
-/
def noHeldLock : Val → Bool
  | .vRwLock lockedElsewhere _ inner => !lockedElsewhere && noHeldLock inner
  | .vMutex inner | .vPoisonError inner => noHeldLock inner
  | .vBox inner | .vCell inner => noHeldLock inner
  | .vRefCell _ inner => noHeldLock inner
  | .vMutSlice xs | .vVec xs | .vVecDeque xs | .vLinkedList xs => noHeldLockList xs
  | .vBTreeMap es | .vHashMap es => noHeldLockEntries es
  | .vSome inner | .vOk inner | .vErr inner => noHeldLock inner
  | _ => true

/-- The element-wise extension of noHeldLock to container contents. -/
def noHeldLockList : List Val → Bool
  | [] => true
  | x :: xs => noHeldLock x && noHeldLockList xs

/-- The value-side extension of noHeldLock to map entries. -/
def noHeldLockEntries : List (Val × Val) → Bool
  | [] => true
  | (_, v) :: es => noHeldLock v && noHeldLockEntries es

end

mutual

/-- Totality of traversal away from held write locks: on a value with no
reachable RwLock currently held by another thread, a trace call runs to
completion. -/
theorem trace_total : ∀ (v : Val), noHeldLock v = true → (trace v).isSome = true
  | .vBool _, _ => by simp [trace]
  | .vChar _, _ => by simp [trace]
  | .vInt _, _ => by simp [trace]
  | .vFloat _, _ => by simp [trace]
  | .vStr _, _ => by simp [trace]
  | .vString _, _ => by simp [trace]
  | .vUnit, _ => by simp [trace]
  | .vFnPtr _, _ => by simp [trace]
  | .vFfi _, _ => by simp [trace]
  | .vIoHandle _, _ => by simp [trace]
  | .vNet _, _ => by simp [trace]
  | .vPath _, _ => by simp [trace]
  | .vProcess _, _ => by simp [trace]
  | .vRc, _ => by simp [trace]
  | .vWeakRc, _ => by simp [trace]
  | .vArc, _ => by simp [trace]
  | .vBarrier, _ => by simp [trace]
  | .vCondvar, _ => by simp [trace]
  | .vMutex _, _ => by simp [trace]
  | .vOnce, _ => by simp [trace]
  | .vPoisonError _, _ => by simp [trace]
  | .vRwLock l p inner, h => by
      simp only [noHeldLock, Bool.and_eq_true, Bool.not_eq_true'] at h
      obtain ⟨hl, hi⟩ := h
      subst hl
      cases p <;> simp [trace]
      exact trace_total inner hi
  | .vThread _, _ => by simp [trace]
  | .vCc _, _ => by simp [trace, traceCc]
  | .vBox inner, h => by
      simp only [noHeldLock] at h
      simpa [trace] using trace_total inner h
  | .vCell inner, h => by
      simp only [noHeldLock] at h
      simpa [trace] using trace_total inner h
  | .vRefCell b inner, h => by
      simp only [noHeldLock] at h
      cases b <;> simp [trace]
      exact trace_total inner h
  | .vMutSlice xs, h => by
      simp only [noHeldLock] at h
      simpa [trace] using traceList_total xs h
  | .vVec xs, h => by
      simp only [noHeldLock] at h
      simpa [trace] using traceList_total xs h
  | .vVecDeque xs, h => by
      simp only [noHeldLock] at h
      simpa [trace] using traceList_total xs h
  | .vLinkedList xs, h => by
      simp only [noHeldLock] at h
      simpa [trace] using traceList_total xs h
  | .vBTreeMap es, h => by
      simp only [noHeldLock] at h
      simpa [trace] using traceEntries_total es h
  | .vHashMap es, h => by
      simp only [noHeldLock] at h
      simpa [trace] using traceEntries_total es h
  | .vNone, _ => by simp [trace]
  | .vSome inner, h => by
      simp only [noHeldLock] at h
      simpa [trace] using trace_total inner h
  | .vOk inner, h => by
      simp only [noHeldLock] at h
      simpa [trace] using trace_total inner h
  | .vErr inner, h => by
      simp only [noHeldLock] at h
      simpa [trace] using trace_total inner h

/-- Totality of element-wise traversal away from held write locks. -/
theorem traceList_total :
    ∀ (xs : List Val), noHeldLockList xs = true → (traceList xs).isSome = true
  | [], _ => by simp [traceList]
  | x :: xs, h => by
      simp only [noHeldLockList, Bool.and_eq_true] at h
      obtain ⟨h1, h2⟩ := h
      obtain ⟨l, hl⟩ := Option.isSome_iff_exists.mp (trace_total x h1)
      obtain ⟨ls, hls⟩ := Option.isSome_iff_exists.mp (traceList_total xs h2)
      simp [traceList, hl, hls]

/-- Totality of value-side map traversal away from held write locks. -/
theorem traceEntries_total :
    ∀ (es : List (Val × Val)), noHeldLockEntries es = true →
      (traceEntries es).isSome = true
  | [], _ => by simp [traceEntries]
  | (k, v) :: es, h => by
      simp only [noHeldLockEntries, Bool.and_eq_true] at h
      obtain ⟨h1, h2⟩ := h
      obtain ⟨l, hl⟩ := Option.isSome_iff_exists.mp (trace_total v h1)
      obtain ⟨ls, hls⟩ := Option.isSome_iff_exists.mp (traceEntries_total es h2)
      simp [traceEntries, hl, hls]

end

/-- Shape of a depth-one container element for the completeness properties: a
reference-counted pointer with a given identity, or a plain atomic integer. -/
def mixElem : Nat ⊕ Int → Val
  | Sum.inl id => Val.vCc id
  | Sum.inr n => Val.vInt n

/-- The identities of the reference-counted pointers in a mixed element list,
in order, one per pointer. -/
def ccIds : List (Nat ⊕ Int) → List Nat
  | [] => []
  | Sum.inl id :: es => id :: ccIds es
  | Sum.inr _ :: es => ccIds es

/-- Tracing a list of mixed elements completes and records exactly one
invocation per pointer, in order, and none for the atomic elements. -/
lemma traceList_mix (es : List (Nat ⊕ Int)) :
    traceList (es.map mixElem) = some (ccIds es) := by
  induction es with
  | nil => simp [traceList, ccIds]
  | cons e es ih =>
      cases e with
      | inl id => simp [traceList, mixElem, ccIds, trace, traceCc, ih]
      | inr n => simp [traceList, mixElem, ccIds, trace, ih]

/-- Tracing map entries is tracing the list of their values: keys never
contribute. -/
lemma traceEntries_values (es : List (Val × Val)) :
    traceEntries es = traceList (es.map Prod.snd) := by
  induction es with
  | nil => simp [traceEntries, traceList]
  | cons kv es ih =>
      obtain ⟨k, v⟩ := kv
      simp [traceEntries, traceList, ih]

/-- C1: for Vec, VecDeque, LinkedList and mutable slices, tracing a container
whose elements are reference-counted pointers mixed with atomic values
completes and invokes the visitor exactly once per depth-one pointer, in
order, for any container size; tracing an empty container invokes the visitor
zero times. -/
theorem C1_container_depth_one :
    (∀ es, trace (Val.vVec (es.map mixElem)) = some (ccIds es))
  ∧ (∀ es, trace (Val.vVecDeque (es.map mixElem)) = some (ccIds es))
  ∧ (∀ es, trace (Val.vLinkedList (es.map mixElem)) = some (ccIds es))
  ∧ (∀ es, trace (Val.vMutSlice (es.map mixElem)) = some (ccIds es))
  ∧ trace (Val.vVec []) = some []
  ∧ trace (Val.vVecDeque []) = some []
  ∧ trace (Val.vLinkedList []) = some []
  ∧ trace (Val.vMutSlice []) = some [] := by
  refine ⟨fun es => ?_, fun es => ?_, fun es => ?_, fun es => ?_, ?_, ?_, ?_, ?_⟩ <;>
    simp [trace, traceList, traceList_mix]

/-- C2: every value whose is_atomic returns true is traced with zero visitor
invocations, and every type family on the atomic leaf list of trace.rs
(primitives, unit, String, function pointers, ffi, io, net, path, process,
Rc and Weak) is classified atomic. -/
theorem C2_atomic_zero :
    (∀ v, isAtomic v = true → trace v = some [])
  ∧ (∀ b, isAtomic (Val.vBool b) = true)
  ∧ (∀ c, isAtomic (Val.vChar c) = true)
  ∧ (∀ n, isAtomic (Val.vInt n) = true)
  ∧ (∀ bits, isAtomic (Val.vFloat bits) = true)
  ∧ (∀ s, isAtomic (Val.vStr s) = true)
  ∧ (∀ s, isAtomic (Val.vString s) = true)
  ∧ isAtomic Val.vUnit = true
  ∧ (∀ a, isAtomic (Val.vFnPtr a) = true)
  ∧ (∀ t, isAtomic (Val.vFfi t) = true)
  ∧ (∀ t, isAtomic (Val.vIoHandle t) = true)
  ∧ (∀ t, isAtomic (Val.vNet t) = true)
  ∧ (∀ t, isAtomic (Val.vPath t) = true)
  ∧ (∀ t, isAtomic (Val.vProcess t) = true)
  ∧ isAtomic Val.vRc = true
  ∧ isAtomic Val.vWeakRc = true := by
  refine ⟨fun v h => ?_, ?_, ?_, ?_, ?_, ?_, ?_, ?_, ?_, ?_, ?_, ?_, ?_, ?_, ?_, ?_⟩ <;>
    first
      | (cases v <;> simp_all [isAtomic, trace, ccIsAtomic])
      | simp [isAtomic]

/-- Witness for C2 at a concrete atomic value. -/
theorem C2_atomic_zero_applied :
    isAtomic Val.vRc = true ∧ trace Val.vRc = some [] :=
  ⟨rfl, C2_atomic_zero.1 Val.vRc rfl⟩

/-- Counterexample to C3 as stated: RwLock is one of the listed
synchronization primitives, yet its Trace implementation keeps the default
is_atomic, which returns false, and its trace can invoke the visitor (here
once, on the pointer held inside an unlocked, unpoisoned lock). -/
theorem C3_rwlock_not_atomic_cx :
    isAtomic (Val.vRwLock false false Val.vUnit) = false ∧
    trace (Val.vRwLock false false (Val.vCc 0)) = some [0] := by
  constructor
  · rfl
  · simp [trace, traceCc]

/-- C3 amended: Mutex, Condvar, Barrier, Once, PoisonError, Arc and the
thread handle types are atomic and trace with zero invocations; RwLock is the
exception — its is_atomic returns false and its trace write-locks the lock
and delegates to the held value, skipping only a poisoned lock and blocking
while another thread holds the lock. -/
theorem C3_sync_thread_amended :
    (∀ v, isAtomic (Val.vMutex v) = true ∧ trace (Val.vMutex v) = some [])
  ∧ (isAtomic Val.vCondvar = true ∧ trace Val.vCondvar = some [])
  ∧ (isAtomic Val.vBarrier = true ∧ trace Val.vBarrier = some [])
  ∧ (isAtomic Val.vOnce = true ∧ trace Val.vOnce = some [])
  ∧ (∀ v, isAtomic (Val.vPoisonError v) = true ∧ trace (Val.vPoisonError v) = some [])
  ∧ (isAtomic Val.vArc = true ∧ trace Val.vArc = some [])
  ∧ (∀ t, isAtomic (Val.vThread t) = true ∧ trace (Val.vThread t) = some [])
  ∧ (∀ l p v, isAtomic (Val.vRwLock l p v) = false)
  ∧ (∀ p v, trace (Val.vRwLock false p v) = if p then some [] else trace v)
  ∧ (∀ p v, trace (Val.vRwLock true p v) = none) := by
  refine ⟨fun v => ?_, ?_, ?_, ?_, fun v => ?_, ?_, fun t => ?_, fun l p v => ?_,
      fun p v => ?_, fun p v => ?_⟩ <;>
    simp [isAtomic, trace]

/-- Counterexample to C4 as stated: tracing a RwLock whose write lock is held
by another thread blocks (the call never returns), because the implementation
acquires the guard with the blocking write call rather than a non-blocking
attempt. -/
theorem C4_rwlock_blocks_cx : trace (Val.vRwLock true false Val.vUnit) = none := by
  simp [trace]

/-- C4 amended: RefCell traversal acquires its guard with the non-blocking,
non-panicking try_borrow and skips on failure, but RwLock traversal uses the
blocking write acquisition, so a trace call blocks while another thread holds
the lock; whenever no reachable RwLock is held by another thread, a trace
call runs to completion. -/
theorem C4_guard_amended :
    (∀ (b : Bool) (v : Val), trace (Val.vRefCell b v) = if b then some [] else trace v)
  ∧ (∀ (p : Bool) (v : Val), trace (Val.vRwLock true p v) = none)
  ∧ (∀ (p : Bool) (v : Val), trace (Val.vRwLock false p v) = if p then some [] else trace v)
  ∧ (∀ v : Val, noHeldLock v = true → (trace v).isSome = true) := by
  refine ⟨fun b v => ?_, fun p v => ?_, fun p v => ?_, trace_total⟩ <;> simp [trace]

/-- Witness for C4 at a concrete lock-free value. -/
theorem C4_guard_amended_applied :
    noHeldLock (Val.vVec [Val.vRefCell true Val.vUnit, Val.vCc 2]) = true ∧
    (trace (Val.vVec [Val.vRefCell true Val.vUnit, Val.vCc 2])).isSome = true :=
  ⟨by simp [noHeldLock, noHeldLockList],
   C4_guard_amended.2.2.2 (Val.vVec [Val.vRefCell true Val.vUnit, Val.vCc 2])
     (by simp [noHeldLock, noHeldLockList])⟩

/-- C5: tracing an exclusively borrowed RefCell returns with zero visitor
invocations (no panic — the call returns a value), and tracing an unborrowed
RefCell delegates to the held value. -/
theorem C5_refcell_skip_or_delegate :
    (∀ v, trace (Val.vRefCell true v) = some [])
  ∧ (∀ v, trace (Val.vRefCell false v) = trace v) := by
  constructor <;> intro v <;> simp [trace]

/-- C6: the collector entry point trace_non_atomic delegates to trace exactly
when is_atomic returns false, and performs zero visitor invocations when
is_atomic returns true. -/
theorem C6_trace_non_atomic_iff (v : Val) :
    (isAtomic v = false → trace_non_atomic v = trace v)
  ∧ (isAtomic v = true → trace_non_atomic v = some []) := by
  constructor <;> intro h <;> simp [trace_non_atomic, h]

/-- Witness for C6 at a non-atomic and an atomic value. -/
theorem C6_trace_non_atomic_applied :
    trace_non_atomic (Val.vCc 5) = trace (Val.vCc 5) ∧
    trace_non_atomic Val.vUnit = some [] :=
  ⟨(C6_trace_non_atomic_iff (Val.vCc 5)).1 rfl, (C6_trace_non_atomic_iff Val.vUnit).2 rfl⟩

/-- C7: BTreeMap and HashMap trace exactly the list of their values and never
a key — replacing every key by anything leaves the visitor invocations
unchanged. -/
theorem C7_maps_values_only :
    (∀ es : List (Val × Val), trace (Val.vBTreeMap es) = traceList (es.map Prod.snd))
  ∧ (∀ es : List (Val × Val), trace (Val.vHashMap es) = traceList (es.map Prod.snd))
  ∧ (∀ (es : List (Val × Val)) (f : Val → Val),
      trace (Val.vBTreeMap (es.map (fun p => (f p.1, p.2)))) = trace (Val.vBTreeMap es))
  ∧ (∀ (es : List (Val × Val)) (f : Val → Val),
      trace (Val.vHashMap (es.map (fun p => (f p.1, p.2)))) = trace (Val.vHashMap es)) := by
  refine ⟨fun es => ?_, fun es => ?_, fun es f => ?_, fun es f => ?_⟩
  · simp [trace, traceEntries_values]
  · simp [trace, traceEntries_values]
  · simp only [trace, traceEntries_values, List.map_map]
    rfl
  · simp only [trace, traceEntries_values, List.map_map]
    rfl

/-- C8: tracing a Result delegates exactly to the branch that is present; in
particular a failure branch holding one reference-counted pointer yields
exactly one visitor invocation, on that pointer. -/
theorem C8_result_branch :
    (∀ t, trace (Val.vOk t) = trace t)
  ∧ (∀ u, trace (Val.vErr u) = trace u)
  ∧ (∀ i, trace (Val.vErr (Val.vCc i)) = some [i]) := by
  refine ⟨fun t => ?_, fun u => ?_, fun i => ?_⟩ <;> simp [trace, traceCc]

/-- C9: composition law — tracing a Vec of Vecs completes exactly when each
inner Vec traces to some list, and its multiset of visitor invocations is the
sum of the multisets of the inner traversals; Box likewise delegates to its
single owned value. -/
theorem C9_composition_law :
    (∀ (xss : List (List Val)) (ls : List (List Nat)),
      List.Forall₂ (fun xs l => trace (Val.vVec xs) = some l) xss ls →
      ∃ L, trace (Val.vVec (xss.map Val.vVec)) = some L ∧
        (L : Multiset Nat) = (ls.map (fun l => (l : Multiset Nat))).sum)
  ∧ (∀ v, trace (Val.vBox v) = trace v) := by
  constructor
  · intro xss ls h
    induction h with
    | nil => exact ⟨[], by simp [trace, traceList], by simp⟩
    | @cons xs l xss ls h1 h2 ih =>
        obtain ⟨L, hL, hM⟩ := ih
        have hL2 : traceList (xss.map Val.vVec) = some L := by simpa [trace] using hL
        have h1L : traceList xs = some l := by simpa [trace] using h1
        refine ⟨l ++ L, ?_, ?_⟩
        · simp [trace, traceList, h1L, hL2]
        · simp [hM, ← Multiset.coe_add]
  · intro v
    simp [trace]

/-- Witness for C9 at a concrete Vec of two Vecs of pointers. -/
theorem C9_composition_law_applied :
    ∃ L, trace (Val.vVec ([[Val.vCc 1], [Val.vCc 2, Val.vCc 3]].map Val.vVec)) = some L ∧
      (L : Multiset Nat) =
        (([[1], [2, 3]] : List (List Nat)).map (fun l => (l : Multiset Nat))).sum :=
  C9_composition_law.1 [[Val.vCc 1], [Val.vCc 2, Val.vCc 3]] [[1], [2, 3]]
    (List.Forall₂.cons (by simp [trace, traceList, traceCc])
      (List.Forall₂.cons (by simp [trace, traceList, traceCc]) List.Forall₂.nil))

/-- C10: Cell traversal unconditionally delegates to a copy of the stored
value — there is no guard check and no skip path, so the visitor invocations
always equal those of tracing the current contents. -/
theorem C10_cell_delegates : ∀ v, trace (Val.vCell v) = trace v := by
  intro v
  simp [trace]

end CcTrace
